import Mathlib

/-!
# Senseair CO2 sensor driver (libs/my_drivers/senseair/src/senseair.c)

A shallow embedding of the driver: the request frame, the Modbus CRC, the
UART byte callbacks `senseair_tx_char` / `senseair_rx_char`, `senseair_tx`,
`senseair_read` and `senseair_init`.

Conventions of the embedding.
* `uint8_t` and `uint16_t` values are `Nat`; an assignment to a `uint16_t`
  is followed by `% 65536`.  `int` values are `Int`; none of the `int`
  computations of the driver leaves the range of a C `int`
  (`tx_off` stays below `tx_len`, `rx_off` below 33, `value` below 65536).
* An array or a pointer to bytes is the `List Nat` of the bytes that start
  there; `p[i]` is `p.getD i 0` and `*p++` is `p.headD 0` followed by
  `p.tail`.  A `NULL` pointer is `none`.
* A comparison of an `int` with a `sizeof` is done by C on `size_t`, so the
  `int` is first reduced modulo `2 ^ 32`.
* The kernel semaphore `struct os_sem` is its token count: `os_sem_init`
  sets it, `os_sem_release` adds one token, `os_sem_pend` takes one token
  or times out.
-/

namespace Senseair

/-! ## Data -/

/-- The request frame `cmd_read_co2`. -/
def cmd_read_co2 : List Nat :=
  [0xFE, 0x44, 0x00, 0x08, 0x02, 0x9F, 0x25]

/-- The driver state `struct senseair`; `sema` is the token count of the
semaphore and `rx_data` the 32-byte receive buffer. -/
structure senseair where
  uart : Int
  sema : Nat
  tx_data : Option (List Nat)
  tx_off : Int
  tx_len : Int
  rx_data : List Nat
  rx_off : Int
  value : Int

/-- The global `senseair` as the C runtime zero-initialises it. -/
def senseair_zero : senseair :=
  { uart := 0, sema := 0, tx_data := none, tx_off := 0, tx_len := 0,
    rx_data := List.replicate 32 0, rx_off := 0, value := 0 }

/-- The request kinds of `enum senseair_read_type`: the source names
`SENSEAIR_CO2`; every other enumerator value takes the `default` branch. -/
inductive senseair_read_type where
  | SENSEAIR_CO2 : senseair_read_type
  | other (raw : Int) : senseair_read_type

/-- Result codes of `os_sem_pend` that the driver tells apart. -/
inductive os_error where
  | OS_OK : os_error
  | OS_TIMEOUT : os_error
deriving DecidableEq

/-- Calls made into the UART HAL by the task-level code. -/
inductive hal_call where
  | hal_uart_start_tx (uart : Int) : hal_call
deriving DecidableEq

/-- Callbacks the UART makes into the driver. -/
inductive uart_event where
  | tx_char : uart_event
  | rx_char (data : Nat) : uart_event
deriving DecidableEq

/-! ## Transmit callback -/

/-- The callback `senseair_tx_char`: the next request byte, or `-1` once the
request has been sent, which also clears `tx_data`. -/
def senseair_tx_char (s : senseair) : Int × senseair :=
  if s.tx_off ≥ s.tx_len then
    (-1, { s with tx_data := none })
  else
    let rc : Int := (((s.tx_data.getD []).getD s.tx_off.toNat 0 : Nat) : Int)
    (rc, { s with tx_off := s.tx_off + 1 })

/-! ## CRC -/

/-- The table `mb_crc_tbl`. -/
def mb_crc_tbl : List Nat :=
  [0x0000, 0xcc01, 0xd801, 0x1400, 0xf001, 0x3c00, 0x2800, 0xe401,
   0xa001, 0x6c00, 0x7800, 0xb401, 0x5000, 0x9c01, 0x8801, 0x4400]

/-- One nibble round of `mb_crc`: `crc = (crc >> 4) ^ mb_crc_tbl[crc & 0xf]`. -/
def mb_crc_nibble (crc : Nat) : Nat :=
  ((crc >>> 4) ^^^ mb_crc_tbl.getD (crc &&& 0xf) 0) % 65536

/-- The body of the loop of `mb_crc` for one byte. -/
def mb_crc_byte (crc : Nat) (b : Nat) : Nat :=
  let crc := (crc ^^^ b) % 65536
  let crc := mb_crc_nibble crc
  let crc := mb_crc_nibble crc
  crc

/-- The loop `while (len-- > 0)` of `mb_crc`, on the number of bytes left. -/
def mb_crc_loop : List Nat → Nat → Nat → Nat
  | _, 0, crc => crc
  | data, len + 1, crc => mb_crc_loop data.tail len (mb_crc_byte crc (data.headD 0))

/-- The function `mb_crc`. -/
def mb_crc (data : List Nat) (len : Int) (crc : Nat) : Nat :=
  mb_crc_loop data len.toNat crc

/-- The function `mb_crc_check`: `0` when the last two bytes of the packet
are the little-endian CRC of the bytes before them, `-1` otherwise. -/
def mb_crc_check (pkt : List Nat) (len : Int) : Int :=
  if len % 4294967296 < 2 + 1 then
    -1
  else
    let crc := mb_crc pkt (len - 2) 0xffff
    let cmp := (pkt.getD (len - 2).toNat 0 ||| (pkt.getD (len - 1).toNat 0 <<< 8)) % 65536
    if crc ≠ cmp then -1 else 0

/-! ## Receive callback -/

/-- The kernel call `os_sem_release` on the token count. -/
def os_sem_release (s : senseair) : senseair :=
  { s with sema := s.sema + 1 }

/-- The index at which `senseair_rx_char` stores its byte: `rx_off` after
the wrap test `if (s->rx_off >= sizeof(s->rx_data)) s->rx_off = 0`. -/
def rx_store_index (s : senseair) : Int :=
  if s.rx_off % 4294967296 ≥ 32 then 0 else s.rx_off

/-- The callback `senseair_rx_char`. -/
def senseair_rx_char (s : senseair) (data : Nat) : Int × senseair :=
  let s := { s with rx_off := rx_store_index s }
  let s := { s with rx_data := s.rx_data.set s.rx_off.toNat data }
  let s := { s with rx_off := s.rx_off + 1 }
  if s.rx_off = 7 then
    let rc := mb_crc_check s.rx_data s.rx_off
    if rc = 0 then
      let s := { s with value := ((s.rx_data.getD 3 0 * 256 + s.rx_data.getD 4 0 : Nat) : Int) }
      (0, os_sem_release s)
    else
      (0, s)
  else
    (0, s)

/-! ## Task-level code -/

/-- The function `senseair_tx`, with the HAL call it makes. -/
def senseair_tx (s : senseair) (tx_data : List Nat) (data_len : Int) :
    senseair × List hal_call :=
  ({ s with tx_data := some tx_data, tx_len := data_len, tx_off := 0, rx_off := 0 },
   [hal_call.hal_uart_start_tx s.uart])

/-- One UART callback applied to the driver state. -/
def uart_callback (s : senseair) : uart_event → senseair
  | uart_event.tx_char => (senseair_tx_char s).2
  | uart_event.rx_char data => (senseair_rx_char s data).2

/-- What a wait on the semaphore yields: the result code, the driver state
when the wait ends and the number of UART callbacks that ran meanwhile. -/
structure pend_result where
  rc : os_error
  st : senseair
  ran : Nat

/-- The kernel call `os_sem_pend` with a timeout, on the token count.  The
list holds the UART callbacks that fall into the timeout window, in order.
The wait ends with `OS_OK` as soon as a token is there, which it takes;
with no token by the end of the window it ends with `OS_TIMEOUT`. -/
def os_sem_pend (s : senseair) : List uart_event → pend_result
  | [] =>
    if 0 < s.sema then ⟨os_error.OS_OK, { s with sema := s.sema - 1 }, 0⟩
    else ⟨os_error.OS_TIMEOUT, s, 0⟩
  | e :: rest =>
    if 0 < s.sema then ⟨os_error.OS_OK, { s with sema := s.sema - 1 }, 0⟩
    else
      let r := os_sem_pend (uart_callback s e) rest
      ⟨r.rc, r.st, r.ran + 1⟩

/-- What `senseair_read` yields: its return value, the driver state on
return, the HAL calls it made and the number of UART callbacks that ran
before it returned. -/
structure read_result where
  rc : Int
  st : senseair
  calls : List hal_call
  ran : Nat

/-- The function `senseair_read`; `window` holds the UART callbacks that
fall into the half-second wait. -/
def senseair_read (s : senseair) (type : senseair_read_type)
    (window : List uart_event) : read_result :=
  if s.tx_data.isSome then
    ⟨-1, s, [], 0⟩
  else
    match type with
    | senseair_read_type.SENSEAIR_CO2 =>
      let cmd := cmd_read_co2
      let cmd_len : Int := 7
      let t := senseair_tx s cmd cmd_len
      let p := os_sem_pend t.1 window
      if p.rc = os_error.OS_TIMEOUT then
        ⟨-2, p.st, t.2, p.ran⟩
      else
        ⟨p.st.value, p.st, t.2, p.ran⟩
    | senseair_read_type.other _ =>
      ⟨-1, s, [], 0⟩

/-- The function `senseair_init`; the return codes of `shell_cmd_register`,
`os_sem_init`, `hal_uart_init_cbs` and `hal_uart_config` are parameters.
A successful `os_sem_init(&s->sema, 1)` sets the token count to one. -/
def senseair_init (s : senseair) (uartno : Int)
    (rc_shell rc_sem rc_cbs rc_config : Int) : Int × senseair :=
  if rc_shell ≠ 0 then (rc_shell, s)
  else if rc_sem ≠ 0 then (rc_sem, s)
  else
    let s := { s with sema := 1 }
    if rc_cbs ≠ 0 then (rc_cbs, s)
    else if rc_config ≠ 0 then (rc_config, s)
    else (0, { s with uart := uartno })

/-! ## Runs of callbacks -/

/-- The driver state after the UART delivered the given bytes, one call of
`senseair_rx_char` each. -/
def rx_feed (s : senseair) (bytes : List Nat) : senseair :=
  bytes.foldl (fun st b => (senseair_rx_char st b).2) s

/-- The driver state after `k` calls of `senseair_tx_char`. -/
def tx_calls (s : senseair) : Nat → senseair
  | 0 => s
  | k + 1 => (senseair_tx_char (tx_calls s k)).2

/-- A frame with one bit flipped: bit `k % 8` of the byte at index `k / 8`. -/
def flip_bit (frame : List Nat) (k : Nat) : List Nat :=
  frame.set (k / 8) (frame.getD (k / 8) 0 ^^^ (1 <<< (k % 8)))

/-- The CRC of five bytes as the loop of `mb_crc` computes it from the
seed `crc`: five rounds of `mb_crc_byte`. -/
def crc5 (crc b0 b1 b2 b3 b4 : Nat) : Nat :=
  mb_crc_byte (mb_crc_byte (mb_crc_byte (mb_crc_byte (mb_crc_byte crc b0) b1) b2) b3) b4

/-- The valid response frame `FE 44 02 01 90 B9 18` carrying the value 400. -/
def response_400 : List Nat :=
  [0xFE, 0x44, 0x02, 0x01, 0x90, 0xB9, 0x18]

/-- A run of 39 received bytes: a valid response, 25 idle bytes and the
same valid response again. -/
def two_responses : List Nat :=
  response_400 ++ List.replicate 25 0 ++ response_400

/-- The transmit side of the driver while a 7-byte request is out and the
UART has called `senseair_tx_char` `c` times. -/
def tx_progress (s : senseair) (c : Nat) : Prop :=
  s.tx_len = 7 ∧
  ((c ≤ 7 ∧ s.tx_off = (c : Int) ∧ s.tx_data ≠ none) ∨
   (8 ≤ c ∧ s.tx_off = 7 ∧ s.tx_data = none))

instance (s : senseair) (c : Nat) : Decidable (tx_progress s c) := by
  unfold tx_progress
  infer_instance

/-- A window in which the UART fetches the whole request, end-of-frame call
included, and delivers nothing. -/
def window_request_sent : List uart_event :=
  List.replicate 8 uart_event.tx_char

/-! ## The reference bitwise Modbus CRC-16 -/

/-- The reference bitwise Modbus CRC-16, one bit: shift the accumulator
right by one bit and xor it with `0xA001` when the bit shifted out was 1. -/
def modbus_crc16_bit (crc : Nat) : Nat :=
  if crc % 2 = 1 then (crc >>> 1) ^^^ 0xA001 else crc >>> 1

/-- The reference bitwise Modbus CRC-16, one byte: xor the byte into the
accumulator, then eight bit steps. -/
def modbus_crc16_byte (crc : Nat) (b : Nat) : Nat :=
  modbus_crc16_bit (modbus_crc16_bit (modbus_crc16_bit (modbus_crc16_bit
    (modbus_crc16_bit (modbus_crc16_bit (modbus_crc16_bit (modbus_crc16_bit
      (crc ^^^ b))))))))

/-- The reference bitwise Modbus CRC-16 of a byte sequence, from the
starting accumulator `crc`. -/
def modbus_crc16 (data : List Nat) (crc : Nat) : Nat :=
  data.foldl modbus_crc16_byte crc

/-- Four bit steps of the reference CRC. -/
def modbus_crc16_four (x : Nat) : Nat :=
  modbus_crc16_bit (modbus_crc16_bit (modbus_crc16_bit (modbus_crc16_bit x)))

/-! ## The CRC is linear over xor -/

/-- Truncation to 16 bits distributes over xor. -/
theorem xor_mod_65536 (a b : Nat) : (a ^^^ b) % 65536 = (a % 65536) ^^^ (b % 65536) := by
  have h : (65536 : Nat) = 2 ^ 16 := by norm_num
  rw [h]
  apply Nat.eq_of_testBit_eq
  intro i
  simp only [Nat.testBit_mod_two_pow, Nat.testBit_xor]
  by_cases hi : i < 16 <;> simp [hi]

/-- A right shift distributes over xor. -/
theorem shiftRight_xor (a b k : Nat) : (a ^^^ b) >>> k = (a >>> k) ^^^ (b >>> k) := by
  apply Nat.eq_of_testBit_eq
  intro i
  simp [Nat.testBit_shiftRight, Nat.testBit_xor]

set_option maxRecDepth 100000 in
/-- The table `mb_crc_tbl` is linear over xor on its 16 indices. -/
theorem mb_crc_tbl_xor : ∀ i < 16, ∀ j < 16,
    mb_crc_tbl.getD (i ^^^ j) 0 = mb_crc_tbl.getD i 0 ^^^ mb_crc_tbl.getD j 0 := by
  decide

/-- The low nibble is a valid index of `mb_crc_tbl`. -/
theorem and_15_lt (x : Nat) : x &&& 0xf < 16 := by
  have := @Nat.and_le_right x 15
  omega

/-- One nibble round is linear over xor. -/
theorem mb_crc_nibble_xor (x y : Nat) :
    mb_crc_nibble (x ^^^ y) = mb_crc_nibble x ^^^ mb_crc_nibble y := by
  unfold mb_crc_nibble
  rw [shiftRight_xor, Nat.and_xor_distrib_right,
    mb_crc_tbl_xor _ (and_15_lt x) _ (and_15_lt y)]
  rw [← xor_mod_65536]
  congr 1
  ac_rfl

/-- One byte round is linear over xor, in the accumulator and the byte together. -/
theorem mb_crc_byte_xor (c d b e : Nat) :
    mb_crc_byte (c ^^^ d) (b ^^^ e) = mb_crc_byte c b ^^^ mb_crc_byte d e := by
  unfold mb_crc_byte
  simp only
  rw [← mb_crc_nibble_xor, ← mb_crc_nibble_xor, ← xor_mod_65536]
  congr 3
  ac_rfl

/-- The accumulator stays a 16-bit value. -/
theorem mb_crc_byte_lt (c b : Nat) : mb_crc_byte c b < 65536 := by
  unfold mb_crc_byte mb_crc_nibble
  exact Nat.mod_lt _ (by norm_num)

set_option maxRecDepth 100000 in
/-- A non-zero byte run through one round from accumulator 0 leaves a non-zero CRC. -/
theorem mb_crc_byte_zero_ne : ∀ e < 256, 0 < e → mb_crc_byte 0 e ≠ 0 := by
  decide

/-- Xor with a non-zero value changes a number. -/
theorem xor_self_ne (a e : Nat) (he : e ≠ 0) : a ^^^ e ≠ a := by
  intro h
  apply he
  have : a ^^^ e = a ^^^ 0 := by simpa using h
  exact Nat.xor_right_injective this

/-! ## Frames of seven bytes -/

/-- A list of at least seven elements starts with seven cells. -/
theorem exists_cons7 (l : List Nat) (h : 7 ≤ l.length) :
    ∃ x0 x1 x2 x3 x4 x5 x6 rest, l = x0 :: x1 :: x2 :: x3 :: x4 :: x5 :: x6 :: rest := by
  rcases l with _ | ⟨x0, _ | ⟨x1, _ | ⟨x2, _ | ⟨x3, _ | ⟨x4, _ | ⟨x5, _ | ⟨x6, rest⟩⟩⟩⟩⟩⟩⟩ <;>
    simp at h
  exact ⟨x0, x1, x2, x3, x4, x5, x6, rest, rfl⟩

/-- A list of length seven is seven cells. -/
theorem exists_eq_seven (l : List Nat) (h : l.length = 7) :
    ∃ x0 x1 x2 x3 x4 x5 x6, l = [x0, x1, x2, x3, x4, x5, x6] := by
  obtain ⟨x0, x1, x2, x3, x4, x5, x6, rest, hx⟩ := exists_cons7 l (by omega)
  subst hx
  have : rest = [] := by
    cases rest with
    | nil => rfl
    | cons y ys => simp at h
  subst this
  exact ⟨x0, x1, x2, x3, x4, x5, x6, rfl⟩

/-- On five bytes `mb_crc` is `crc5`. -/
theorem mb_crc_five (b0 b1 b2 b3 b4 crc : Nat) (rest : List Nat) :
    mb_crc (b0 :: b1 :: b2 :: b3 :: b4 :: rest) 5 crc = crc5 crc b0 b1 b2 b3 b4 := by
  simp [mb_crc, mb_crc_loop, crc5]

/-- On a 7-byte packet `mb_crc_check` compares `crc5` of the first five bytes with the last two. -/
theorem mb_crc_check_seven (b0 b1 b2 b3 b4 b5 b6 : Nat) (rest : List Nat) :
    mb_crc_check (b0 :: b1 :: b2 :: b3 :: b4 :: b5 :: b6 :: rest) 7 =
      if crc5 0xffff b0 b1 b2 b3 b4 ≠ (b5 ||| (b6 <<< 8)) % 65536 then -1 else 0 := by
  simp [mb_crc_check, mb_crc, mb_crc_loop, crc5]

/-- The little-endian combination of two bytes, as arithmetic. -/
theorem or_shift_bytes (lo hi : Nat) (hlo : lo < 256) :
    lo ||| (hi <<< 8) = 256 * hi + lo := by
  have h := Nat.mul_add_lt_is_or (i := 8) (b := lo) (by simpa using hlo) hi
  rw [Nat.shiftLeft_eq, Nat.or_comm, Nat.mul_comm hi]
  simp only [Nat.reducePow] at h ⊢
  exact h.symm

/-- The low and the high byte of a 16-bit CRC combine back to it. -/
theorem crc_bytes_recombine (c : Nat) (hc : c < 65536) :
    (c % 256 ||| ((c / 256) <<< 8)) % 65536 = c := by
  rw [or_shift_bytes _ _ (Nat.mod_lt _ (by norm_num))]
  omega

/-! ## Error patterns in the five checksummed bytes -/

/-- The CRC of five bytes is linear over xor. -/
theorem crc5_xor (c d b0 e0 b1 e1 b2 e2 b3 e3 b4 e4 : Nat) :
    crc5 (c ^^^ d) (b0 ^^^ e0) (b1 ^^^ e1) (b2 ^^^ e2) (b3 ^^^ e3) (b4 ^^^ e4) =
      crc5 c b0 b1 b2 b3 b4 ^^^ crc5 d e0 e1 e2 e3 e4 := by
  simp only [crc5, mb_crc_byte_xor]

/-- An error pattern changes the CRC by the CRC of the pattern from accumulator 0. -/
theorem crc5_error (c b0 b1 b2 b3 b4 e0 e1 e2 e3 e4 : Nat) :
    crc5 c (b0 ^^^ e0) (b1 ^^^ e1) (b2 ^^^ e2) (b3 ^^^ e3) (b4 ^^^ e4) =
      crc5 c b0 b1 b2 b3 b4 ^^^ crc5 0 e0 e1 e2 e3 e4 := by
  have h := crc5_xor c 0 b0 e0 b1 e1 b2 e2 b3 e3 b4 e4
  simpa using h

/-- An error pattern with a non-zero CRC changes the CRC. -/
theorem crc5_error_ne (c b0 b1 b2 b3 b4 e0 e1 e2 e3 e4 : Nat)
    (he : crc5 0 e0 e1 e2 e3 e4 ≠ 0) :
    crc5 c (b0 ^^^ e0) (b1 ^^^ e1) (b2 ^^^ e2) (b3 ^^^ e3) (b4 ^^^ e4) ≠
      crc5 c b0 b1 b2 b3 b4 := by
  rw [crc5_error]
  exact xor_self_ne _ _ he

set_option maxRecDepth 100000 in
/-- Each of the 40 single-bit patterns in five bytes has a non-zero CRC. -/
theorem crc5_single_bit_ne : ∀ j < 8,
    crc5 0 (1 <<< j) 0 0 0 0 ≠ 0 ∧ crc5 0 0 (1 <<< j) 0 0 0 ≠ 0 ∧
    crc5 0 0 0 (1 <<< j) 0 0 ≠ 0 ∧ crc5 0 0 0 0 (1 <<< j) 0 ≠ 0 ∧
    crc5 0 0 0 0 0 (1 <<< j) ≠ 0 := by
  decide

/-- Two different values of the fifth byte give different CRCs. -/
theorem crc5_last_byte_ne (c b0 b1 b2 b3 b4 b : Nat) (hb4 : b4 < 256) (hb : b < 256)
    (hne : b ≠ b4) :
    crc5 c b0 b1 b2 b3 b ≠ crc5 c b0 b1 b2 b3 b4 := by
  have hlt : b4 ^^^ b < 256 := Nat.xor_lt_two_pow (n := 8) hb4 hb
  have hpos : 0 < b4 ^^^ b := by
    rcases Nat.eq_zero_or_pos (b4 ^^^ b) with h | h
    · exact absurd (Nat.xor_eq_zero.mp h).symm hne
    · exact h
  have hb' : b = b4 ^^^ (b4 ^^^ b) := by
    rw [← Nat.xor_assoc, Nat.xor_self, Nat.zero_xor]
  have hz : crc5 0 0 0 0 0 (b4 ^^^ b) ≠ 0 := by
    simpa [crc5, mb_crc_byte, mb_crc_nibble, mb_crc_tbl] using
      mb_crc_byte_zero_ne _ hlt hpos
  have h := crc5_error_ne c b0 b1 b2 b3 b4 0 0 0 0 (b4 ^^^ b) hz
  simp only [Nat.xor_zero] at h
  rw [← hb'] at h
  exact h

/-- Flipping one of the low eight bits of a byte gives a byte. -/
theorem xor_bit_lt (b j : Nat) (hb : b < 256) (hj : j < 8) : b ^^^ (1 <<< j) < 256 := by
  have h1 : 1 <<< j < 2 ^ 8 := by
    rw [Nat.one_shiftLeft]
    exact Nat.pow_lt_pow_right (by norm_num) hj
  exact Nat.xor_lt_two_pow (n := 8) hb h1

/-- Flipping a bit changes a number. -/
theorem xor_bit_ne (b j : Nat) : b ^^^ (1 <<< j) ≠ b := by
  apply xor_self_ne
  rw [Nat.one_shiftLeft]
  exact Nat.pos_iff_ne_zero.mp (Nat.two_pow_pos j)

/-- A flipped bit in the low checksum byte changes the compared value. -/
theorem cmp_lo_flip_ne (b5 b6 j : Nat) (h5 : b5 < 256) (hj : j < 8) :
    ((b5 ^^^ (1 <<< j)) ||| b6 <<< 8) % 65536 ≠ (b5 ||| b6 <<< 8) % 65536 := by
  have hlt := xor_bit_lt b5 j h5 hj
  have hne := xor_bit_ne b5 j
  rw [or_shift_bytes _ _ hlt, or_shift_bytes _ _ h5]
  omega

/-- A flipped bit in the high checksum byte changes the compared value. -/
theorem cmp_hi_flip_ne (b5 b6 j : Nat) (h5 : b5 < 256) (h6 : b6 < 256) (hj : j < 8) :
    (b5 ||| (b6 ^^^ (1 <<< j)) <<< 8) % 65536 ≠ (b5 ||| b6 <<< 8) % 65536 := by
  have hlt := xor_bit_lt b6 j h6 hj
  have hne := xor_bit_ne b6 j
  rw [or_shift_bytes _ _ h5, or_shift_bytes _ _ h5]
  omega

/-! ## Seven received bytes -/

/-- Seven bytes received from `rx_off = 0`: they fill cells 0 to 6, and the frame check decides on the value and the token. -/
theorem rx_feed_seven (s : senseair) (b0 b1 b2 b3 b4 b5 b6 : Nat)
    (h0 : s.rx_off = 0) (hlen : s.rx_data.length = 32) :
    rx_feed s [b0, b1, b2, b3, b4, b5, b6] =
      if mb_crc_check [b0, b1, b2, b3, b4, b5, b6] 7 = 0 then
        { s with rx_data := b0 :: b1 :: b2 :: b3 :: b4 :: b5 :: b6 :: s.rx_data.drop 7,
                 rx_off := 7, value := ((b3 * 256 + b4 : Nat) : Int), sema := s.sema + 1 }
      else
        { s with rx_data := b0 :: b1 :: b2 :: b3 :: b4 :: b5 :: b6 :: s.rx_data.drop 7,
                 rx_off := 7 } := by
  obtain ⟨x0, x1, x2, x3, x4, x5, x6, rest, hx⟩ := exists_cons7 s.rx_data (by omega)
  simp only [rx_feed, List.foldl, senseair_rx_char, rx_store_index, h0, hx, os_sem_release]
  simp [mb_crc_check_seven]
  split <;> rfl

/-- A wait on an empty semaphore during which seven bytes arrive from `rx_off = 0`. -/
theorem os_sem_pend_rx_seven (s : senseair) (b0 b1 b2 b3 b4 b5 b6 : Nat)
    (h0 : s.rx_off = 0) (hs : s.sema = 0) (hlen : s.rx_data.length = 32) :
    os_sem_pend s ([b0, b1, b2, b3, b4, b5, b6].map uart_event.rx_char) =
      if mb_crc_check [b0, b1, b2, b3, b4, b5, b6] 7 = 0 then
        ⟨os_error.OS_OK,
          { s with rx_data := b0 :: b1 :: b2 :: b3 :: b4 :: b5 :: b6 :: s.rx_data.drop 7,
                   rx_off := 7, value := ((b3 * 256 + b4 : Nat) : Int), sema := 0 }, 7⟩
      else
        ⟨os_error.OS_TIMEOUT,
          { s with rx_data := b0 :: b1 :: b2 :: b3 :: b4 :: b5 :: b6 :: s.rx_data.drop 7,
                   rx_off := 7 }, 7⟩ := by
  obtain ⟨x0, x1, x2, x3, x4, x5, x6, rest, hx⟩ := exists_cons7 s.rx_data (by omega)
  simp only [List.map, os_sem_pend, uart_callback, senseair_rx_char, rx_store_index, h0, hs, hx,
    os_sem_release]
  simp [mb_crc_check_seven]
  split <;> simp [hs]

/-! ## The transmit side -/

/-- The receive callback leaves the transmit side and `uart` alone. -/
theorem senseair_rx_char_tx_fields (s : senseair) (b : Nat) :
    (senseair_rx_char s b).2.tx_data = s.tx_data ∧
    (senseair_rx_char s b).2.tx_off = s.tx_off ∧
    (senseair_rx_char s b).2.tx_len = s.tx_len ∧
    (senseair_rx_char s b).2.uart = s.uart := by
  unfold senseair_rx_char os_sem_release
  simp only
  split
  · split <;> simp
  · simp

/-- One callback advances the transmit progress by one exactly when it is `senseair_tx_char`. -/
theorem tx_progress_callback (s : senseair) (c : Nat) (e : uart_event)
    (h : tx_progress s c) :
    tx_progress (uart_callback s e) (c + (if e = uart_event.tx_char then 1 else 0)) := by
  obtain ⟨hl, h⟩ := h
  cases e with
  | tx_char =>
    simp only [uart_callback, senseair_tx_char, if_true]
    rcases h with ⟨hc, ho, hd⟩ | ⟨hc, ho, hd⟩
    · by_cases h7 : c = 7
      · subst h7
        have : s.tx_off ≥ s.tx_len := by omega
        simp only [this, if_true]
        exact ⟨hl, Or.inr ⟨by omega, ho, rfl⟩⟩
      · have : ¬ s.tx_off ≥ s.tx_len := by omega
        simp only [this, if_false]
        exact ⟨hl, Or.inl ⟨by omega, by simp [ho], hd⟩⟩
    · have : s.tx_off ≥ s.tx_len := by omega
      simp only [this, if_true]
      exact ⟨hl, Or.inr ⟨by omega, ho, rfl⟩⟩
  | rx_char b =>
    obtain ⟨h1, h2, h3, _⟩ := senseair_rx_char_tx_fields s b
    simp only [uart_callback, if_false, Nat.add_zero, tx_progress, h1, h2, h3, reduceCtorEq]
    exact ⟨hl, h⟩

/-- The transmit progress at the end of a wait counts the `senseair_tx_char` calls that ran. -/
theorem tx_progress_pend (window : List uart_event) (s : senseair) (c : Nat)
    (h : tx_progress s c) :
    tx_progress (os_sem_pend s window).st
      (c + ((window.take (os_sem_pend s window).ran).count uart_event.tx_char)) := by
  induction window generalizing s c with
  | nil =>
    by_cases hs : 0 < s.sema <;> simpa [os_sem_pend, hs, tx_progress] using h
  | cons e rest ih =>
    by_cases hs : 0 < s.sema
    · simpa [os_sem_pend, hs, tx_progress] using h
    · have hstep := ih (uart_callback s e) _ (tx_progress_callback s c e h)
      simp only [os_sem_pend, hs, if_false, List.take_succ_cons, List.count_cons]
      have hbeq : (if (e == uart_event.tx_char) = true then 1 else 0)
          = (if e = uart_event.tx_char then 1 else 0) := by
        by_cases he : e = uart_event.tx_char <;> simp [he]
      rw [hbeq]
      have harr : c + ((List.count uart_event.tx_char
            (List.take (os_sem_pend (uart_callback s e) rest).ran rest))
            + (if e = uart_event.tx_char then 1 else 0))
          = c + (if e = uart_event.tx_char then 1 else 0)
            + (List.count uart_event.tx_char
              (List.take (os_sem_pend (uart_callback s e) rest).ran rest)) := by omega
      rw [harr]
      exact hstep

/-- The parts of the result of `senseair_read` on a driver that is not busy. -/
theorem senseair_read_idle (s : senseair) (window : List uart_event)
    (hidle : s.tx_data = none) :
    (senseair_read s senseair_read_type.SENSEAIR_CO2 window).st
        = (os_sem_pend (senseair_tx s cmd_read_co2 7).1 window).st ∧
    (senseair_read s senseair_read_type.SENSEAIR_CO2 window).ran
        = (os_sem_pend (senseair_tx s cmd_read_co2 7).1 window).ran ∧
    (senseair_read s senseair_read_type.SENSEAIR_CO2 window).calls
        = [hal_call.hal_uart_start_tx s.uart] ∧
    (senseair_read s senseair_read_type.SENSEAIR_CO2 window).rc
        = (if (os_sem_pend (senseair_tx s cmd_read_co2 7).1 window).rc = os_error.OS_TIMEOUT
            then -2 else (os_sem_pend (senseair_tx s cmd_read_co2 7).1 window).st.value) := by
  have h : s.tx_data.isSome = false := by simp [hidle]
  unfold senseair_read
  rw [h]
  simp only [Bool.false_eq_true, if_false]
  by_cases hp : (os_sem_pend (senseair_tx s cmd_read_co2 7).1 window).rc = os_error.OS_TIMEOUT
  · rw [if_pos hp, if_pos hp]
    exact ⟨rfl, rfl, rfl, rfl⟩
  · rw [if_neg hp, if_neg hp]
    exact ⟨rfl, rfl, rfl, rfl⟩

/-- The first `n` calls of `senseair_tx_char` after `senseair_tx` only advance `tx_off`. -/
theorem tx_calls_sending (s : senseair) (data : List Nat) (n k : Nat) (hk : k ≤ n) :
    tx_calls (senseair_tx s data (n : Int)).1 k =
      { (senseair_tx s data (n : Int)).1 with tx_off := (k : Int) } := by
  induction k with
  | zero => simp [tx_calls, senseair_tx]
  | succ k ih =>
    have hlt : ¬ ((k : Int) ≥ (n : Int)) := by omega
    rw [tx_calls, ih (by omega)]
    simp [senseair_tx_char, senseair_tx, hlt]

/-- From call `n + 1` on, `tx_off` rests at `n` and `tx_data` is `NULL`. -/
theorem tx_calls_done (s : senseair) (data : List Nat) (n k : Nat) (hk : n < k) :
    tx_calls (senseair_tx s data (n : Int)).1 k =
      { (senseair_tx s data (n : Int)).1 with tx_off := (n : Int), tx_data := none } := by
  induction k with
  | zero => omega
  | succ k ih =>
    rw [tx_calls]
    by_cases hkn : k = n
    · subst hkn
      rw [tx_calls_sending s data k k (le_refl k)]
      simp [senseair_tx_char, senseair_tx]
    · rw [ih (by omega)]
      simp [senseair_tx_char, senseair_tx]

/-! ## The receive cursor and the token count over a run of bytes -/

/-- What one call of `senseair_rx_char` does to the cursor, the buffer and the token count. -/
theorem senseair_rx_char_rx_fields (s : senseair) (b : Nat) :
    (senseair_rx_char s b).2.rx_off = rx_store_index s + 1 ∧
    (senseair_rx_char s b).2.rx_data = s.rx_data.set (rx_store_index s).toNat b ∧
    s.sema ≤ (senseair_rx_char s b).2.sema ∧
    (senseair_rx_char s b).2.sema ≤ s.sema + (if rx_store_index s + 1 = 7 then 1 else 0) := by
  unfold senseair_rx_char os_sem_release
  simp only
  by_cases h7 : rx_store_index s + 1 = 7
  · simp only [h7, if_true]
    split <;> simp
  · simp [h7]

/-- The store index for a cursor between 0 and 32. -/
theorem rx_store_index_of_bounds (s : senseair) (h0 : 0 ≤ s.rx_off) (h32 : s.rx_off ≤ 32) :
    rx_store_index s = if s.rx_off = 32 then 0 else s.rx_off := by
  unfold rx_store_index
  by_cases h : s.rx_off = 32
  · simp [h]
  · have hmod : s.rx_off % 4294967296 = s.rx_off := Int.emod_eq_of_lt h0 (by omega)
    have hlt : ¬ (s.rx_off ≥ 32) := by omega
    rw [hmod]
    simp [h, hlt]

/-- A run of bytes followed by one more byte. -/
theorem rx_feed_snoc (s : senseair) (bytes : List Nat) (b : Nat) :
    rx_feed s (bytes ++ [b]) = (senseair_rx_char (rx_feed s bytes) b).2 := by
  simp [rx_feed, List.foldl_append]

/-- Cursor, buffer length and token count after a run of bytes received from `rx_off = 0`. -/
theorem rx_feed_invariant (s : senseair) (h0 : s.rx_off = 0) (bytes : List Nat) :
    (rx_feed s bytes).rx_off =
      (if bytes.length = 0 then 0 else (((bytes.length - 1) % 32 + 1 : Nat) : Int)) ∧
    (rx_feed s bytes).rx_data.length = s.rx_data.length ∧
    s.sema ≤ (rx_feed s bytes).sema ∧
    (rx_feed s bytes).sema ≤ s.sema + (bytes.length + 25) / 32 := by
  induction bytes using List.reverseRecOn with
  | nil => simp [rx_feed, h0]
  | append_singleton bytes b ih =>
    obtain ⟨hoff, hlen, hlo, hhi⟩ := ih
    obtain ⟨h1, h2, h3, h4⟩ := senseair_rx_char_rx_fields (rx_feed s bytes) b
    have hb0 : 0 ≤ (rx_feed s bytes).rx_off := by
      rw [hoff]; split <;> omega
    have hb32 : (rx_feed s bytes).rx_off ≤ 32 := by
      rw [hoff]; split <;> omega
    have hidx := rx_store_index_of_bounds _ hb0 hb32
    rw [rx_feed_snoc]
    rw [hidx] at h1 h4
    simp only [List.length_append, List.length_singleton]
    refine ⟨?_, ?_, ?_, ?_⟩
    · rw [h1, hoff]
      by_cases hz : bytes.length = 0
      · simp [hz]
      · simp only [hz, if_false, Nat.add_sub_cancel]
        split <;> split <;> omega
    · rw [h2, List.length_set, hlen]
    · omega
    · rw [hoff] at h4
      by_cases hz : bytes.length = 0
      · simp only [hz, if_true] at h4
        simp at h4
        omega
      · simp only [hz, if_false] at h4
        split at h4 <;> split at h4 <;> omega

/-! ## The table rounds and the bit steps of the reference CRC -/

/-- One bit step as a shift and a conditional mask. -/
theorem modbus_crc16_bit_eq (x : Nat) :
    modbus_crc16_bit x = (x >>> 1) ^^^ (if x % 2 = 1 then 0xA001 else 0) := by
  unfold modbus_crc16_bit
  split <;> simp

/-- One bit step of the reference CRC is linear over xor. -/
theorem modbus_crc16_bit_xor (x y : Nat) :
    modbus_crc16_bit (x ^^^ y) = modbus_crc16_bit x ^^^ modbus_crc16_bit y := by
  simp only [modbus_crc16_bit_eq, shiftRight_xor]
  have hpar : (if (x ^^^ y) % 2 = 1 then 0xA001 else 0)
      = (if x % 2 = 1 then 0xA001 else 0) ^^^ (if y % 2 = 1 then 0xA001 else 0) := by
    by_cases hx : x % 2 = 1 <;> by_cases hy : y % 2 = 1 <;>
      simp [Nat.xor_mod_two_eq_one, hx, hy] <;> omega
  rw [hpar]
  ac_rfl

/-- Four bit steps are linear over xor. -/
theorem modbus_crc16_four_xor (x y : Nat) :
    modbus_crc16_four (x ^^^ y) = modbus_crc16_four x ^^^ modbus_crc16_four y := by
  simp only [modbus_crc16_four, modbus_crc16_bit_xor]

set_option maxRecDepth 100000 in
/-- Four bit steps on a nibble give the entry of `mb_crc_tbl` at that nibble. -/
theorem modbus_crc16_four_low : ∀ l < 16, modbus_crc16_four l = mb_crc_tbl.getD l 0 := by
  decide

/-- Four bit steps on a value with an empty low nibble only shift it. -/
theorem modbus_crc16_four_high (h : Nat) : modbus_crc16_four (h <<< 4) = h := by
  have e : h <<< 4 = 16 * h := by rw [Nat.shiftLeft_eq]; omega
  rw [e]
  simp only [modbus_crc16_four, modbus_crc16_bit, Nat.shiftRight_eq_div_pow]
  have h1 : ¬ (16 * h % 2 = 1) := by omega
  have e1 : 16 * h / 2 ^ 1 = 8 * h := by omega
  have h2 : ¬ (8 * h % 2 = 1) := by omega
  have e2 : 8 * h / 2 ^ 1 = 4 * h := by omega
  have h3 : ¬ (4 * h % 2 = 1) := by omega
  have e3 : 4 * h / 2 ^ 1 = 2 * h := by omega
  have h4 : ¬ (2 * h % 2 = 1) := by omega
  have e4 : 2 * h / 2 ^ 1 = h := by omega
  simp only [h1, if_false, e1, h2, e2, h3, e3, h4, e4]

/-- A number is its low nibble xor the rest. -/
theorem nibble_split (x : Nat) : x = (x &&& 0xf) ^^^ ((x >>> 4) <<< 4) := by
  apply Nat.eq_of_testBit_eq
  intro i
  have h15 : (0xf : Nat) = 2 ^ 4 - 1 := by norm_num
  rw [h15]
  simp only [Nat.testBit_xor, Nat.testBit_and, Nat.testBit_two_pow_sub_one,
    Nat.testBit_shiftLeft, Nat.testBit_shiftRight]
  by_cases hi : i < 4
  · have : ¬ (i ≥ 4) := by omega
    simp [hi, this]
  · have h4 : i ≥ 4 := by omega
    have e : 4 + (i - 4) = i := by omega
    simp [hi, h4, e]
set_option maxRecDepth 100000 in
theorem mb_crc_tbl_lt : ∀ l < 16, mb_crc_tbl.getD l 0 < 65536 := by
  decide

/-- One table round is four bit steps of the reference CRC. -/
theorem mb_crc_nibble_eq_four (x : Nat) (hx : x < 65536) :
    mb_crc_nibble x = modbus_crc16_four x := by
  have hl : x &&& 0xf < 16 := and_15_lt x
  have hsplit : modbus_crc16_four x
      = mb_crc_tbl.getD (x &&& 0xf) 0 ^^^ (x >>> 4) := by
    conv_lhs => rw [nibble_split x]
    rw [modbus_crc16_four_xor, modbus_crc16_four_low _ hl, modbus_crc16_four_high]
  have hh : x >>> 4 < 2 ^ 16 := by
    rw [Nat.shiftRight_eq_div_pow]
    omega
  have ht : mb_crc_tbl.getD (x &&& 0xf) 0 < 2 ^ 16 := mb_crc_tbl_lt _ hl
  have hlt : (x >>> 4) ^^^ mb_crc_tbl.getD (x &&& 0xf) 0 < 65536 :=
    Nat.xor_lt_two_pow (n := 16) hh ht
  rw [hsplit, mb_crc_nibble, Nat.mod_eq_of_lt hlt, Nat.xor_comm]

/-- A table round leaves a 16-bit value. -/
theorem mb_crc_nibble_lt (x : Nat) : mb_crc_nibble x < 65536 := by
  unfold mb_crc_nibble
  exact Nat.mod_lt _ (by norm_num)

/-- One byte of the table-driven CRC is one byte of the reference CRC. -/
theorem mb_crc_byte_eq_modbus (crc b : Nat) (hc : crc < 65536) (hb : b < 256) :
    mb_crc_byte crc b = modbus_crc16_byte crc b := by
  have hx : crc ^^^ b < 65536 :=
    Nat.xor_lt_two_pow (n := 16) hc (by omega)
  have e : modbus_crc16_byte crc b
      = modbus_crc16_four (modbus_crc16_four (crc ^^^ b)) := rfl
  rw [e, ← mb_crc_nibble_eq_four _ hx, ← mb_crc_nibble_eq_four _ (mb_crc_nibble_lt _)]
  simp only [mb_crc_byte, Nat.mod_eq_of_lt hx]

/-- The loop of `mb_crc` over `len` bytes is the reference CRC of these bytes. -/
theorem mb_crc_loop_eq_modbus (len : Nat) :
    ∀ (data : List Nat) (crc : Nat), len ≤ data.length → crc < 65536 →
      (∀ b ∈ data, b < 256) →
      mb_crc_loop data len crc = modbus_crc16 (data.take len) crc ∧
      mb_crc_loop data len crc < 65536 := by
  induction len with
  | zero =>
    intro data crc _ hc _
    simp [mb_crc_loop, modbus_crc16, hc]
  | succ len ih =>
    intro data crc hlen hc hbytes
    cases data with
    | nil => simp at hlen
    | cons b rest =>
      have hb : b < 256 := hbytes b (by simp)
      have hrest : ∀ x ∈ rest, x < 256 := fun x hx => hbytes x (by simp [hx])
      have hstep := ih rest (mb_crc_byte crc b) (by simpa using hlen)
        (mb_crc_byte_lt crc b) hrest
      simp only [mb_crc_loop, List.headD_cons, List.tail_cons, List.take_succ_cons,
        modbus_crc16, List.foldl_cons]
      rw [← mb_crc_byte_eq_modbus crc b hc hb]
      exact hstep

/-! ## The claims -/

/-- C1 (response round trip): for bytes `a`, `f`, `n` and a value `v` of at
most 65535, with `c` the CRC of `a, f, n, v / 256, v % 256`, feeding the
seven bytes `a, f, n, v / 256, v % 256, c % 256, c / 256` to
`senseair_rx_char` from `rx_off = 0` stores `v` and releases the semaphore
once: no token is added by the first six bytes and one by the seventh.  A
`senseair_read` of an idle driver with no token that receives these bytes
during its wait returns `v`. -/
theorem response_round_trip (s : senseair) (a f n v : Nat)
    (h0 : s.rx_off = 0) (hlen : s.rx_data.length = 32)
    (_ha : a < 256) (_hf : f < 256) (_hn : n < 256) (_hv : v ≤ 65535) :
    (rx_feed s [a, f, n, v / 256, v % 256,
        mb_crc [a, f, n, v / 256, v % 256] 5 0xFFFF % 256,
        mb_crc [a, f, n, v / 256, v % 256] 5 0xFFFF / 256]).value = (v : Int) ∧
    (rx_feed s [a, f, n, v / 256, v % 256,
        mb_crc [a, f, n, v / 256, v % 256] 5 0xFFFF % 256,
        mb_crc [a, f, n, v / 256, v % 256] 5 0xFFFF / 256]).sema = s.sema + 1 ∧
    (∀ k, k < 7 →
      (rx_feed s (List.take k [a, f, n, v / 256, v % 256,
        mb_crc [a, f, n, v / 256, v % 256] 5 0xFFFF % 256,
        mb_crc [a, f, n, v / 256, v % 256] 5 0xFFFF / 256])).sema = s.sema) ∧
    (s.tx_data = none → s.sema = 0 →
      (senseair_read s senseair_read_type.SENSEAIR_CO2
        (List.map uart_event.rx_char [a, f, n, v / 256, v % 256,
          mb_crc [a, f, n, v / 256, v % 256] 5 0xFFFF % 256,
          mb_crc [a, f, n, v / 256, v % 256] 5 0xFFFF / 256])).rc = (v : Int)) := by
  have hc : mb_crc [a, f, n, v / 256, v % 256] 5 0xFFFF < 65536 := by
    rw [mb_crc_five]; exact mb_crc_byte_lt _ _
  have hchk : mb_crc_check [a, f, n, v / 256, v % 256,
        mb_crc [a, f, n, v / 256, v % 256] 5 0xFFFF % 256,
        mb_crc [a, f, n, v / 256, v % 256] 5 0xFFFF / 256] 7 = 0 := by
    rw [mb_crc_check_seven, crc_bytes_recombine _ hc, mb_crc_five]
    simp
  have hval : v / 256 * 256 + v % 256 = v := by omega
  refine ⟨?_, ?_, ?_, ?_⟩
  · rw [rx_feed_seven s _ _ _ _ _ _ _ h0 hlen, if_pos hchk]
    simp only [hval]
  · rw [rx_feed_seven s _ _ _ _ _ _ _ h0 hlen, if_pos hchk]
  · intro k hk
    interval_cases k <;>
      simp [rx_feed, senseair_rx_char, rx_store_index, h0]
  · intro htx hs
    have hidle : s.tx_data.isSome = false := by simp [htx]
    have hp := os_sem_pend_rx_seven (senseair_tx s cmd_read_co2 7).1 a f n (v / 256) (v % 256)
      (mb_crc [a, f, n, v / 256, v % 256] 5 0xFFFF % 256)
      (mb_crc [a, f, n, v / 256, v % 256] 5 0xFFFF / 256) rfl hs hlen
    rw [if_pos hchk] at hp
    simp only [senseair_read, hidle, hp]
    simp [hval]

/-- Witness of C1: the frame `FE 44 02 01 90` followed by its CRC gives 400. -/
theorem response_round_trip_witness :
    (rx_feed senseair_zero [0xFE, 0x44, 0x02, 400 / 256, 400 % 256,
        mb_crc [0xFE, 0x44, 0x02, 400 / 256, 400 % 256] 5 0xFFFF % 256,
        mb_crc [0xFE, 0x44, 0x02, 400 / 256, 400 % 256] 5 0xFFFF / 256]).value = 400 ∧
    (senseair_read senseair_zero senseair_read_type.SENSEAIR_CO2
        (List.map uart_event.rx_char [0xFE, 0x44, 0x02, 400 / 256, 400 % 256,
          mb_crc [0xFE, 0x44, 0x02, 400 / 256, 400 % 256] 5 0xFFFF % 256,
          mb_crc [0xFE, 0x44, 0x02, 400 / 256, 400 % 256] 5 0xFFFF / 256])).rc = 400 :=
  have h := response_round_trip senseair_zero 0xFE 0x44 0x02 400 rfl rfl
    (by decide) (by decide) (by decide) (by decide)
  ⟨h.1, h.2.2.2 rfl rfl⟩

/-- C2 (timeout when nothing arrives), evaluated on the code at the first
call after `senseair_init`: `os_sem_init(&s->sema, 1)` leaves one token,
so the first `senseair_read` does not wait; whatever the UART does, it
returns the zero-initialised `value`, `0`, rather than the timeout code
`-2`, and no UART callback ran before it returned. -/
theorem first_read_after_init_returns_zero (uartno : Int) (window : List uart_event) :
    (senseair_init senseair_zero uartno 0 0 0 0).1 = 0 ∧
    (senseair_init senseair_zero uartno 0 0 0 0).2.tx_data = none ∧
    (senseair_read (senseair_init senseair_zero uartno 0 0 0 0).2
      senseair_read_type.SENSEAIR_CO2 window).rc = 0 ∧
    (senseair_read (senseair_init senseair_zero uartno 0 0 0 0).2
      senseair_read_type.SENSEAIR_CO2 window).rc ≠ -2 ∧
    (senseair_read (senseair_init senseair_zero uartno 0 0 0 0).2
      senseair_read_type.SENSEAIR_CO2 window).ran = 0 := by
  cases window <;>
    simp [senseair_init, senseair_zero, senseair_read, senseair_tx, os_sem_pend]

/-- C3 (single flight): a `senseair_read` called while `tx_data` is not
`NULL` returns `-1`, makes no HAL call (starts no transmission), runs no
callback and leaves the whole driver state as it was. -/
theorem read_busy_no_effect (s : senseair) (type : senseair_read_type)
    (window : List uart_event) (hbusy : s.tx_data ≠ none) :
    (senseair_read s type window).rc = -1 ∧
    (senseair_read s type window).calls = [] ∧
    (senseair_read s type window).st = s := by
  have h : s.tx_data.isSome = true := by
    cases hd : s.tx_data with
    | none => exact absurd hd hbusy
    | some d => rfl
  simp [senseair_read, h]

/-- Witness of C3: a second read while the request of the first one is
still being sent. -/
theorem read_busy_no_effect_witness :
    (senseair_tx senseair_zero cmd_read_co2 7).1.tx_data ≠ none ∧
    (senseair_read (senseair_tx senseair_zero cmd_read_co2 7).1
      senseair_read_type.SENSEAIR_CO2 []).rc = -1 :=
  ⟨by simp [senseair_tx],
   (read_busy_no_effect (senseair_tx senseair_zero cmd_read_co2 7).1
      senseair_read_type.SENSEAIR_CO2 [] (by simp [senseair_tx])).1⟩

/-- C4 (no stuck busy state), as the code has it: a `senseair_read` of an
idle driver during which the UART called `senseair_tx_char` at least eight
times (the seven request bytes and the end-of-frame call) leaves `tx_data`
`NULL`, whatever else the UART did and whether the read returned a value or
`-2`; the next `senseair_read` is then accepted: it starts a transmission,
and the transmission starts with `tx_data = cmd_read_co2`, `tx_off = 0` and
`rx_off = 0`. -/
theorem read_idle_after_request_sent (s : senseair) (window next : List uart_event)
    (hidle : s.tx_data = none)
    (hsent : 8 ≤ (window.take (senseair_read s senseair_read_type.SENSEAIR_CO2 window).ran).count
      uart_event.tx_char) :
    (senseair_read s senseair_read_type.SENSEAIR_CO2 window).st.tx_data = none ∧
    (senseair_read (senseair_read s senseair_read_type.SENSEAIR_CO2 window).st
      senseair_read_type.SENSEAIR_CO2 next).calls =
      [hal_call.hal_uart_start_tx (senseair_read s senseair_read_type.SENSEAIR_CO2 window).st.uart] ∧
    (senseair_read (senseair_read s senseair_read_type.SENSEAIR_CO2 window).st
      senseair_read_type.SENSEAIR_CO2 []).st.tx_data = some cmd_read_co2 ∧
    (senseair_read (senseair_read s senseair_read_type.SENSEAIR_CO2 window).st
      senseair_read_type.SENSEAIR_CO2 []).st.tx_off = 0 ∧
    (senseair_read (senseair_read s senseair_read_type.SENSEAIR_CO2 window).st
      senseair_read_type.SENSEAIR_CO2 []).st.rx_off = 0 := by
  obtain ⟨hst, hran, _, _⟩ := senseair_read_idle s window hidle
  have h0 : tx_progress (senseair_tx s cmd_read_co2 7).1 0 := by
    simp [tx_progress, senseair_tx]
  have hp := tx_progress_pend window _ 0 h0
  rw [← hst, ← hran] at hp
  have hnone : (senseair_read s senseair_read_type.SENSEAIR_CO2 window).st.tx_data = none := by
    rcases hp.2 with ⟨hc, _, _⟩ | ⟨_, _, hd⟩
    · omega
    · exact hd
  refine ⟨hnone, ?_, ?_, ?_, ?_⟩
  · exact (senseair_read_idle _ next hnone).2.2.1
  all_goals
    rw [(senseair_read_idle _ [] hnone).1]
    by_cases hs : 0 < (senseair_read s senseair_read_type.SENSEAIR_CO2 window).st.sema <;>
      simp [senseair_tx, os_sem_pend, hs]

set_option maxRecDepth 100000 in
/-- Witness of C4 as corrected: the UART sends the request and the sensor
stays silent; the read times out and the driver is idle again. -/
theorem read_idle_after_request_sent_witness :
    senseair_zero.tx_data = none ∧
    8 ≤ (window_request_sent.take
      (senseair_read senseair_zero senseair_read_type.SENSEAIR_CO2 window_request_sent).ran).count
        uart_event.tx_char ∧
    (senseair_read senseair_zero senseair_read_type.SENSEAIR_CO2 window_request_sent).rc = -2 ∧
    (senseair_read senseair_zero senseair_read_type.SENSEAIR_CO2
      window_request_sent).st.tx_data = none :=
  ⟨rfl, by decide, by decide,
   (read_idle_after_request_sent senseair_zero window_request_sent [] rfl (by decide)).1⟩

set_option maxRecDepth 100000 in
/-- Counterexample to C4 as stated: with a UART that makes no callback the
first read of the zero-initialised driver times out with `-2`, `tx_data`
is still set when it returns, and the next read is rejected with `-1`
without starting a transmission. -/
theorem read_timeout_leaves_busy :
    senseair_zero.tx_data = none ∧
    (senseair_read senseair_zero senseair_read_type.SENSEAIR_CO2 []).rc = -2 ∧
    (senseair_read senseair_zero senseair_read_type.SENSEAIR_CO2 []).st.tx_data ≠ none ∧
    (senseair_read (senseair_read senseair_zero senseair_read_type.SENSEAIR_CO2 []).st
      senseair_read_type.SENSEAIR_CO2 []).rc = -1 ∧
    (senseair_read (senseair_read senseair_zero senseair_read_type.SENSEAIR_CO2 []).st
      senseair_read_type.SENSEAIR_CO2 []).calls = [] := by
  decide

/-- C5 (corrupted response): take a 7-byte frame that `mb_crc_check`
accepts and replace its byte at index 4 by a different byte.  Then
`mb_crc_check` rejects the altered frame; feeding it to `senseair_rx_char`
from `rx_off = 0` adds no token to the semaphore and leaves `value` as it
was; and a `senseair_read` of an idle driver with no token that receives
the altered frame during its wait returns `-2`, with `value` unchanged. -/
theorem corrupted_response_times_out (s : senseair) (frame : List Nat) (b : Nat)
    (hlen : s.rx_data.length = 32)
    (hframe : frame.length = 7) (hbytes : ∀ x ∈ frame, x < 256)
    (hok : mb_crc_check frame 7 = 0)
    (hb : b < 256) (hne : b ≠ frame.getD 4 0) :
    mb_crc_check (frame.set 4 b) 7 = -1 ∧
    (s.rx_off = 0 →
      (rx_feed s (frame.set 4 b)).sema = s.sema ∧
      (rx_feed s (frame.set 4 b)).value = s.value) ∧
    (s.tx_data = none → s.sema = 0 →
      (senseair_read s senseair_read_type.SENSEAIR_CO2
        ((frame.set 4 b).map uart_event.rx_char)).rc = -2 ∧
      (senseair_read s senseair_read_type.SENSEAIR_CO2
        ((frame.set 4 b).map uart_event.rx_char)).st.value = s.value) := by
  obtain ⟨b0, b1, b2, b3, b4, b5, b6, hx⟩ := exists_eq_seven frame hframe
  subst hx
  have hb4 : b4 < 256 := hbytes b4 (by simp)
  have hne' : b ≠ b4 := by simpa using hne
  rw [mb_crc_check_seven] at hok
  have hcrc : crc5 0xffff b0 b1 b2 b3 b4 = (b5 ||| b6 <<< 8) % 65536 := by
    by_contra hcon
    rw [if_pos hcon] at hok
    exact absurd hok (by decide)
  have hbad : crc5 0xffff b0 b1 b2 b3 b ≠ (b5 ||| b6 <<< 8) % 65536 := by
    rw [← hcrc]
    exact crc5_last_byte_ne _ b0 b1 b2 b3 b4 b hb4 hb hne'
  have hset : [b0, b1, b2, b3, b4, b5, b6].set 4 b = [b0, b1, b2, b3, b, b5, b6] := rfl
  have hchk : mb_crc_check [b0, b1, b2, b3, b, b5, b6] 7 = -1 := by
    rw [mb_crc_check_seven, if_pos hbad]
  have hchk0 : ¬ mb_crc_check [b0, b1, b2, b3, b, b5, b6] 7 = 0 := by
    rw [hchk]; decide
  rw [hset]
  refine ⟨hchk, ?_, ?_⟩
  · intro h0
    rw [rx_feed_seven s _ _ _ _ _ _ _ h0 hlen, if_neg hchk0]
    exact ⟨rfl, rfl⟩
  · intro htx hs
    obtain ⟨hst, _, _, hrc⟩ := senseair_read_idle s
      ([b0, b1, b2, b3, b, b5, b6].map uart_event.rx_char) htx
    have hp := os_sem_pend_rx_seven (senseair_tx s cmd_read_co2 7).1 b0 b1 b2 b3 b b5 b6
      rfl hs hlen
    rw [if_neg hchk0] at hp
    rw [hrc, hst, hp]
    exact ⟨rfl, rfl⟩

set_option maxRecDepth 100000 in
/-- Witness of C5: the response `FE 44 02 01 90 B9 18` with its value byte
`0x90` replaced by `0x91`. -/
theorem corrupted_response_times_out_witness :
    mb_crc_check response_400 7 = 0 ∧
    mb_crc_check (response_400.set 4 0x91) 7 = -1 ∧
    (senseair_read senseair_zero senseair_read_type.SENSEAIR_CO2
        ((response_400.set 4 0x91).map uart_event.rx_char)).rc = -2 :=
  have h := corrupted_response_times_out senseair_zero response_400 0x91
    rfl rfl (by decide) (by decide) (by decide) (by decide)
  ⟨by decide, h.1, (h.2.2 rfl rfl).1⟩

/-- C6 (single-bit error detection): for every 7-byte frame that
`mb_crc_check` accepts and every bit position `k` below 56, the frame with
bit `k % 8` of byte `k / 8` flipped is rejected: `mb_crc_check` returns
`-1`. -/
theorem single_bit_error_detected (frame : List Nat) (k : Nat)
    (hframe : frame.length = 7) (hbytes : ∀ x ∈ frame, x < 256)
    (hok : mb_crc_check frame 7 = 0) (hk : k < 56) :
    mb_crc_check (flip_bit frame k) 7 = -1 := by
  obtain ⟨b0, b1, b2, b3, b4, b5, b6, hx⟩ := exists_eq_seven frame hframe
  subst hx
  have h5 : b5 < 256 := hbytes b5 (by simp)
  have h6 : b6 < 256 := hbytes b6 (by simp)
  rw [mb_crc_check_seven] at hok
  have hcrc : crc5 0xffff b0 b1 b2 b3 b4 = (b5 ||| b6 <<< 8) % 65536 := by
    by_contra hcon
    rw [if_pos hcon] at hok
    exact absurd hok (by decide)
  have hj : k % 8 < 8 := Nat.mod_lt _ (by norm_num)
  obtain ⟨e0, e1, e2, e3, e4⟩ := crc5_single_bit_ne (k % 8) hj
  have hi : k / 8 < 7 := by omega
  unfold flip_bit
  generalize k % 8 = j at *
  generalize k / 8 = i at *
  interval_cases i
  · have h := crc5_error_ne 0xffff b0 b1 b2 b3 b4 (1 <<< j) 0 0 0 0 e0
    simp only [Nat.xor_zero] at h
    rw [hcrc] at h
    simp only [List.getD_cons_zero, List.set_cons_zero, mb_crc_check_seven]
    rw [if_pos h]
  · have h := crc5_error_ne 0xffff b0 b1 b2 b3 b4 0 (1 <<< j) 0 0 0 e1
    simp only [Nat.xor_zero] at h
    rw [hcrc] at h
    simp only [List.getD_cons_zero, List.getD_cons_succ, List.set_cons_zero, List.set_cons_succ,
      mb_crc_check_seven]
    rw [if_pos h]
  · have h := crc5_error_ne 0xffff b0 b1 b2 b3 b4 0 0 (1 <<< j) 0 0 e2
    simp only [Nat.xor_zero] at h
    rw [hcrc] at h
    simp only [List.getD_cons_zero, List.getD_cons_succ, List.set_cons_zero, List.set_cons_succ,
      mb_crc_check_seven]
    rw [if_pos h]
  · have h := crc5_error_ne 0xffff b0 b1 b2 b3 b4 0 0 0 (1 <<< j) 0 e3
    simp only [Nat.xor_zero] at h
    rw [hcrc] at h
    simp only [List.getD_cons_zero, List.getD_cons_succ, List.set_cons_zero, List.set_cons_succ,
      mb_crc_check_seven]
    rw [if_pos h]
  · have h := crc5_error_ne 0xffff b0 b1 b2 b3 b4 0 0 0 0 (1 <<< j) e4
    simp only [Nat.xor_zero] at h
    rw [hcrc] at h
    simp only [List.getD_cons_zero, List.getD_cons_succ, List.set_cons_zero, List.set_cons_succ,
      mb_crc_check_seven]
    rw [if_pos h]
  · have h := cmp_lo_flip_ne b5 b6 j h5 hj
    rw [← hcrc] at h
    simp only [List.getD_cons_zero, List.getD_cons_succ, List.set_cons_zero, List.set_cons_succ,
      mb_crc_check_seven]
    rw [if_pos (Ne.symm h)]
  · have h := cmp_hi_flip_ne b5 b6 j h5 h6 hj
    rw [← hcrc] at h
    simp only [List.getD_cons_zero, List.getD_cons_succ, List.set_cons_zero, List.set_cons_succ,
      mb_crc_check_seven]
    rw [if_pos (Ne.symm h)]

set_option maxRecDepth 100000 in
/-- Witness of C6: bit 3 of byte 2 of the response `FE 44 02 01 90 B9 18`. -/
theorem single_bit_error_detected_witness :
    response_400.length = 7 ∧ mb_crc_check response_400 7 = 0 ∧
    flip_bit response_400 19 = [0xFE, 0x44, 0x0A, 0x01, 0x90, 0xB9, 0x18] ∧
    mb_crc_check (flip_bit response_400 19) 7 = -1 :=
  ⟨rfl, by decide, by decide,
   single_bit_error_detected response_400 19 rfl (by decide) (by decide) (by decide)⟩

/-- C7 (request frame): `cmd_read_co2` is `FE 44 00 08 02 9F 25`, the CRC
of its first five bytes is `0x259F`, `mb_crc_check` accepts its seven
bytes, and a `senseair_read` of an idle driver hands exactly this frame to
the UART: it starts the transmission with `tx_data = cmd_read_co2`,
`tx_len = 7`, `tx_off = 0`, and `senseair_tx_char` then yields the seven
bytes in order followed by `-1`. -/
theorem request_frame (s : senseair) (hidle : s.tx_data = none) :
    cmd_read_co2 = [0xFE, 0x44, 0x00, 0x08, 0x02, 0x9F, 0x25] ∧
    mb_crc cmd_read_co2 5 0xFFFF = 0x259F ∧
    mb_crc_check cmd_read_co2 7 = 0 ∧
    (senseair_read s senseair_read_type.SENSEAIR_CO2 []).calls =
      [hal_call.hal_uart_start_tx s.uart] ∧
    (senseair_read s senseair_read_type.SENSEAIR_CO2 []).st.tx_data = some cmd_read_co2 ∧
    (senseair_read s senseair_read_type.SENSEAIR_CO2 []).st.tx_len = 7 ∧
    (senseair_read s senseair_read_type.SENSEAIR_CO2 []).st.tx_off = 0 ∧
    (List.range 8).map (fun k => (senseair_tx_char
      (tx_calls (senseair_read s senseair_read_type.SENSEAIR_CO2 []).st k)).1) =
      [0xFE, 0x44, 0x00, 0x08, 0x02, 0x9F, 0x25, -1] := by
  have h : s.tx_data.isSome = false := by simp [hidle]
  refine ⟨rfl, by decide, by decide, ?_, ?_, ?_, ?_, ?_⟩
  all_goals
    by_cases hs : 0 < s.sema <;>
      simp [senseair_read, h, senseair_tx, os_sem_pend, hs, List.range, List.range.loop,
        tx_calls, senseair_tx_char, cmd_read_co2]

/-- Witness of C7: the first read of the zero-initialised driver. -/
theorem request_frame_witness :
    senseair_zero.tx_data = none ∧
    (senseair_read senseair_zero senseair_read_type.SENSEAIR_CO2 []).st.tx_data =
      some [0xFE, 0x44, 0x00, 0x08, 0x02, 0x9F, 0x25] :=
  ⟨rfl, (request_frame senseair_zero rfl).2.2.2.2.1⟩

/-- C8 (byte-out sequence): after `senseair_tx(s, data, n)` with `n ≥ 0`
bytes available at `data`, the `k`-th call of `senseair_tx_char` returns
`data[k-1]` for `k = 1..n`; the `(n+1)`-th and every later call return `-1`;
`tx_data` is still set after each of the first `n` calls and is `NULL`
after the `(n+1)`-th and every later one, so that the calls after the first
`-1` find `tx_data = NULL` and yet return `-1`. -/
theorem tx_char_byte_sequence (s : senseair) (data : List Nat) (n : Nat)
    (hn : n ≤ data.length) :
    (∀ k, 1 ≤ k → k ≤ n →
      ∃ b, data[k - 1]? = some b ∧
        (senseair_tx_char (tx_calls (senseair_tx s data (n : Int)).1 (k - 1))).1 = (b : Int)) ∧
    (∀ k, n < k →
      (senseair_tx_char (tx_calls (senseair_tx s data (n : Int)).1 (k - 1))).1 = -1) ∧
    (∀ k, k ≤ n → (tx_calls (senseair_tx s data (n : Int)).1 k).tx_data = some data) ∧
    (∀ k, n < k → (tx_calls (senseair_tx s data (n : Int)).1 k).tx_data = none) := by
  refine ⟨?_, ?_, ?_, ?_⟩
  · intro k hk1 hkn
    have hlt : k - 1 < data.length := by omega
    refine ⟨data[k - 1], List.getElem?_eq_getElem hlt, ?_⟩
    rw [tx_calls_sending s data n (k - 1) (by omega)]
    have hcmp : ¬ (((k - 1 : Nat) : Int) ≥ (n : Int)) := by omega
    simp [senseair_tx_char, senseair_tx, hcmp, List.getD_eq_getElem?_getD,
      List.getElem?_eq_getElem hlt]
  · intro k hk
    by_cases hkn : k - 1 = n
    · rw [hkn, tx_calls_sending s data n n (le_refl n)]
      simp [senseair_tx_char, senseair_tx]
    · rw [tx_calls_done s data n (k - 1) (by omega)]
      simp [senseair_tx_char, senseair_tx]
  · intro k hk
    rw [tx_calls_sending s data n k hk]
    simp [senseair_tx]
  · intro k hk
    rw [tx_calls_done s data n k hk]

/-- Witness of C8: the request frame, seven bytes. -/
theorem tx_char_byte_sequence_witness :
    7 ≤ cmd_read_co2.length ∧
    (senseair_tx_char (tx_calls (senseair_tx senseair_zero cmd_read_co2 7).1 7)).1 = -1 ∧
    (tx_calls (senseair_tx senseair_zero cmd_read_co2 7).1 7).tx_data = some cmd_read_co2 ∧
    (tx_calls (senseair_tx senseair_zero cmd_read_co2 7).1 8).tx_data = none :=
  have h := tx_char_byte_sequence senseair_zero cmd_read_co2 7 (by decide)
  ⟨by decide, h.2.1 8 (by decide), h.2.2.1 7 (by decide), h.2.2.2 8 (by decide)⟩

/-- C9 (ring overflow safety): in the state reached from `senseair_tx` by
any run of `senseair_rx_char` calls, `0 ≤ rx_off ≤ 32` and `rx_data` still
has 32 cells; after `m ≥ 1` bytes `rx_off = ((m - 1) mod 32) + 1`; a further
call stores its byte at an index in `0..31`, changes no other cell of
`rx_data`, and when `rx_off` is 32 on entry stores at index 0 and leaves
`rx_off = 1`. -/
theorem rx_ring_overflow_safe (s : senseair) (data : List Nat) (n : Int)
    (bytes : List Nat) (b : Nat) (hlen : s.rx_data.length = 32) :
    (0 ≤ (rx_feed (senseair_tx s data n).1 bytes).rx_off ∧
      (rx_feed (senseair_tx s data n).1 bytes).rx_off ≤ 32) ∧
    (rx_feed (senseair_tx s data n).1 bytes).rx_data.length = 32 ∧
    (1 ≤ bytes.length →
      (rx_feed (senseair_tx s data n).1 bytes).rx_off
        = (((bytes.length - 1) % 32 + 1 : Nat) : Int)) ∧
    (0 ≤ rx_store_index (rx_feed (senseair_tx s data n).1 bytes) ∧
      rx_store_index (rx_feed (senseair_tx s data n).1 bytes) < 32) ∧
    (senseair_rx_char (rx_feed (senseair_tx s data n).1 bytes) b).2.rx_data.length = 32 ∧
    (senseair_rx_char (rx_feed (senseair_tx s data n).1 bytes) b).2.rx_data[
        (rx_store_index (rx_feed (senseair_tx s data n).1 bytes)).toNat]? = some b ∧
    (∀ j, j ≠ (rx_store_index (rx_feed (senseair_tx s data n).1 bytes)).toNat →
      (senseair_rx_char (rx_feed (senseair_tx s data n).1 bytes) b).2.rx_data[j]?
        = (rx_feed (senseair_tx s data n).1 bytes).rx_data[j]?) ∧
    ((rx_feed (senseair_tx s data n).1 bytes).rx_off = 32 →
      rx_store_index (rx_feed (senseair_tx s data n).1 bytes) = 0 ∧
      (senseair_rx_char (rx_feed (senseair_tx s data n).1 bytes) b).2.rx_off = 1) := by
  obtain ⟨hoff, hl, _, _⟩ := rx_feed_invariant (senseair_tx s data n).1 rfl bytes
  have hl32 : (rx_feed (senseair_tx s data n).1 bytes).rx_data.length = 32 := by
    rw [hl]; exact hlen
  have hb0 : 0 ≤ (rx_feed (senseair_tx s data n).1 bytes).rx_off := by
    rw [hoff]; split <;> omega
  have hb32 : (rx_feed (senseair_tx s data n).1 bytes).rx_off ≤ 32 := by
    rw [hoff]; split <;> omega
  have hidx := rx_store_index_of_bounds _ hb0 hb32
  obtain ⟨h1, h2, _, _⟩ := senseair_rx_char_rx_fields (rx_feed (senseair_tx s data n).1 bytes) b
  have hi0 : 0 ≤ rx_store_index (rx_feed (senseair_tx s data n).1 bytes) := by
    rw [hidx]; split <;> omega
  have hi32 : rx_store_index (rx_feed (senseair_tx s data n).1 bytes) < 32 := by
    rw [hidx]; split <;> omega
  have hnat : (rx_store_index (rx_feed (senseair_tx s data n).1 bytes)).toNat
      < (rx_feed (senseair_tx s data n).1 bytes).rx_data.length := by
    rw [hl32]; omega
  refine ⟨⟨hb0, hb32⟩, hl32, ?_, ⟨hi0, hi32⟩, ?_, ?_, ?_, ?_⟩
  · intro hm
    have hz : ¬ bytes.length = 0 := by omega
    rw [hoff, if_neg hz]
  · rw [h2, List.length_set, hl32]
  · rw [h2, List.getElem?_set_self hnat]
  · intro j hj
    rw [h2, List.getElem?_set_ne (Ne.symm hj)]
  · intro h32
    have hi : rx_store_index (rx_feed (senseair_tx s data n).1 bytes) = 0 := by
      rw [hidx, if_pos h32]
    exact ⟨hi, by rw [h1, hi]; rfl⟩

set_option maxRecDepth 100000 in
/-- Witness of C9: 33 bytes after `senseair_tx`; the 33rd byte lands in
cell 0 and leaves `rx_off = 1`. -/
theorem rx_ring_overflow_safe_witness :
    senseair_zero.rx_data.length = 32 ∧
    (rx_feed (senseair_tx senseair_zero cmd_read_co2 7).1 (List.replicate 32 0xAA)).rx_off = 32 ∧
    rx_store_index
      (rx_feed (senseair_tx senseair_zero cmd_read_co2 7).1 (List.replicate 32 0xAA)) = 0 ∧
    (senseair_rx_char
      (rx_feed (senseair_tx senseair_zero cmd_read_co2 7).1 (List.replicate 32 0xAA)) 0x55).2.rx_off
        = 1 :=
  have h := rx_ring_overflow_safe senseair_zero cmd_read_co2 7 (List.replicate 32 0xAA) 0x55 rfl
  have h32 := h.2.2.1 (by decide)
  ⟨rfl, h32, (h.2.2.2.2.2.2.2 h32).1, (h.2.2.2.2.2.2.2 h32).2⟩

/-- C10 (one-shot completion signal), as the code has it: between one
`senseair_tx` and the next, a run of at most 38 bytes delivered to
`senseair_rx_char` releases the semaphore at most once; a run of `m` bytes
of any length releases it at most `(m + 25) / 32` times, once for each time
the receive cursor reaches 7. -/
theorem rx_releases_bounded (s : senseair) (data : List Nat) (n : Int) (bytes : List Nat) :
    s.sema ≤ (rx_feed (senseair_tx s data n).1 bytes).sema ∧
    (rx_feed (senseair_tx s data n).1 bytes).sema ≤ s.sema + (bytes.length + 25) / 32 ∧
    (bytes.length ≤ 38 → (rx_feed (senseair_tx s data n).1 bytes).sema ≤ s.sema + 1) := by
  obtain ⟨_, _, hlo, hhi⟩ := rx_feed_invariant (senseair_tx s data n).1 rfl bytes
  have hs : (senseair_tx s data n).1.sema = s.sema := rfl
  rw [hs] at hlo hhi
  refine ⟨hlo, hhi, ?_⟩
  intro hm
  omega

set_option maxRecDepth 100000 in
/-- Witness of C10 as corrected: one valid response followed by 25 idle
bytes, 32 bytes in all, releases the semaphore once. -/
theorem rx_releases_bounded_witness :
    (response_400 ++ List.replicate 25 0).length ≤ 38 ∧
    (rx_feed (senseair_tx senseair_zero cmd_read_co2 7).1
      (response_400 ++ List.replicate 25 0)).sema ≤ senseair_zero.sema + 1 ∧
    (rx_feed (senseair_tx senseair_zero cmd_read_co2 7).1
      (response_400 ++ List.replicate 25 0)).sema = 1 :=
  ⟨by decide,
   (rx_releases_bounded senseair_zero cmd_read_co2 7 (response_400 ++ List.replicate 25 0)).2.2
     (by decide),
   by decide⟩

set_option maxRecDepth 100000 in
/-- Counterexample to C10 as stated: within one transaction the 39 bytes
`two_responses` (a valid response, 25 idle bytes that wrap the receive
cursor, the valid response again) release the semaphore twice. -/
theorem rx_releases_twice_after_wrap :
    two_responses.length = 39 ∧
    (senseair_tx senseair_zero cmd_read_co2 7).1.sema = 0 ∧
    (rx_feed (senseair_tx senseair_zero cmd_read_co2 7).1 two_responses).sema = 2 ∧
    ¬ ((rx_feed (senseair_tx senseair_zero cmd_read_co2 7).1 two_responses).sema
        ≤ (senseair_tx senseair_zero cmd_read_co2 7).1.sema + 1) := by
  decide

/-- C11 (table-driven CRC equals the reference Modbus CRC-16): for every
sequence of `len` bytes at `data` and every 16-bit starting accumulator
`crc`, `mb_crc(data, len, crc)` (xor the byte in, then two rounds of
`crc = (crc >> 4) ^ mb_crc_tbl[crc & 0xf]`) is the 16-bit value that the
bitwise Modbus CRC-16 computes on these bytes from `crc` (xor the byte in,
then eight times: shift right by one bit and xor with `0xA001` when the bit
shifted out was 1). -/
theorem mb_crc_eq_modbus_crc16 (data : List Nat) (len : Nat) (crc : Nat)
    (hlen : len ≤ data.length) (hbytes : ∀ b ∈ data, b < 256) (hcrc : crc < 65536) :
    mb_crc data (len : Int) crc = modbus_crc16 (data.take len) crc ∧
    mb_crc data (len : Int) crc < 65536 := by
  have h := mb_crc_loop_eq_modbus len data crc hlen hcrc hbytes
  simpa [mb_crc] using h

set_option maxRecDepth 100000 in
/-- Witness of C11: the five checksummed bytes of the request frame from
the seed `0xFFFF`; both computations give `0x259F`. -/
theorem mb_crc_eq_modbus_crc16_witness :
    5 ≤ cmd_read_co2.length ∧ (∀ b ∈ cmd_read_co2, b < 256) ∧
    modbus_crc16 (cmd_read_co2.take 5) 0xFFFF = 0x259F ∧
    mb_crc cmd_read_co2 5 0xFFFF = modbus_crc16 (cmd_read_co2.take 5) 0xFFFF :=
  ⟨by decide, by decide, by decide,
   (mb_crc_eq_modbus_crc16 cmd_read_co2 5 0xFFFF (by decide) (by decide) (by decide)).1⟩

end Senseair
